import Mathlib

/-!
Verification of the streaming chat assembler of the SSU_RAG frontend
(`ChatInterface.jsx`).

The embedding models, faithfully to the JavaScript source:

* the transcript (the React `messages` state) as a list of `Message`;
* the SSE read loop of `sendMessage`: an incremental UTF-8 decoder
  (`TextDecoder('utf-8', {stream: true})`) as a byte-at-a-time state machine,
  the blank-line framer (`buffer.indexOf('\n\n')` while-loop) as a fuel-based
  recursion whose fuel is the buffer length (each iteration consumes at least
  two characters), and the per-frame dispatch (`data: ` marker check,
  `JSON.parse`, the `token`/`meta`/`final` branches);
* `JSON.parse` abstractly, as a parameter `parse : Str → Option ParsedEvt`
  (a JS builtin, not repository code); a parse result is restricted to the
  fields the dispatch reads (`type`, `content`, `answer`, `sources`), with JS
  truthiness of those fields modelled explicitly;
* the surrounding `sendMessage` control flow (eager appends, the placeholder,
  the catch-block error message) with the `Date.now()` readings passed in as
  natural-number parameters, constrained only where a claim needs it;
* the session-id initializer, with `localStorage` as an `Option` value and the
  `Math.random().toString(36).slice(2)` fallback modelled as the exact base-36
  expansion of a 53-bit dyadic rational.

UI-only data (timestamps, `isLoading`, scrolling) and the request body are
omitted: no claim refers to them.  The `frames` field of `FrameSt` is ghost
state recording the frames handed to the dispatcher; it influences nothing.
-/

/-- Character strings, represented as lists of characters so that the framer
can be reasoned about by list induction. -/
abbrev Str := List Char

/-- A transcript entry, mirroring the message objects built in
`ChatInterface.jsx` (`id`, `text`, `role`, optional `sources`).  The `timestamp`
field of the source is display-only metadata and is not modelled; `sources` is
`none` when the JS object carries no such property (user and error messages). -/
structure Message where
  id : Nat
  text : Str
  role : Str
  sources : Option (List Str)
deriving DecidableEq, Repr

/-- The result of `JSON.parse` on one frame payload, restricted to the fields
the dispatch in `sendMessage` reads.  A `none` field models an absent
(`undefined`) property. -/
structure ParsedEvt where
  type : Str
  content : Option Str
  answer : Option Str
  sources : Option (List Str)
deriving DecidableEq, Repr

/-- The event-type string `'token'`. -/
def tokenType : Str := "token".toList

/-- The event-type string `'meta'`. -/
def metaType : Str := "meta".toList

/-- The event-type string `'final'`. -/
def finalType : Str := "final".toList

/-- JS truthiness of an optional string property: truthy iff present and
non-empty (`undefined` and `''` are falsy). -/
abbrev truthyS (o : Option Str) : Prop := o.getD [] ≠ []

/-- JS `a || b` on optional array properties: an array value is always truthy
(so even an empty `sources` array wins), an absent property falls through. -/
def jsOr {α : Type} : Option α → Option α → Option α
  | some x, _ => some x
  | none, y => y

/-- `applyToken` of `ChatInterface.jsx` (lines 66–70): append the token to the
text of the message whose id is `aiId`.  (`(m.text || '') + token` coincides
with plain concatenation, since `'' + token = token`.) -/
def applyToken (aiId : Nat) (token : Str) (msgs : List Message) : List Message :=
  msgs.map fun m => if m.id = aiId then { m with text := m.text ++ token } else m

/-- `applyMeta` of `ChatInterface.jsx` (lines 72–78): if the event carries a
`sources` property, replace the sources of the message whose id is `aiId`. -/
def applyMeta (aiId : Nat) (meta : ParsedEvt) (msgs : List Message) : List Message :=
  match meta.sources with
  | some srcs => msgs.map fun m => if m.id = aiId then { m with sources := some srcs } else m
  | none => msgs

/-- The event dispatch of the read loop (`ChatInterface.jsx` lines 95–104):
`token` with truthy content appends, `meta` replaces sources, `final` with a
truthy answer overwrites the text wholesale and takes `evt.sources || m.sources`;
every other event is ignored. -/
def processEvt (aiId : Nat) (evt : ParsedEvt) (msgs : List Message) : List Message :=
  if evt.type = tokenType ∧ truthyS evt.content then
    applyToken aiId (evt.content.getD []) msgs
  else if evt.type = metaType then
    applyMeta aiId evt msgs
  else if evt.type = finalType ∧ truthyS evt.answer then
    msgs.map fun m =>
      if m.id = aiId then { m with text := evt.answer.getD [], sources := jsOr evt.sources m.sources }
      else m
  else msgs

/-- The fixed SSE payload marker `'data: '` (`ChatInterface.jsx` line 91). -/
def dataMarker : Str := "data: ".toList

/-- Processing of one complete (already trimmed, non-empty) frame
(`ChatInterface.jsx` lines 91–108): a frame is handled only when it starts with
`'data: '` (`raw.startsWith('data: ')`, i.e. its first six characters are the
marker); the payload is everything after the marker (`raw.slice(6)`); a payload
on which `JSON.parse` throws is swallowed by the inner try/catch, mutating
nothing. -/
def processRaw (parse : Str → Option ParsedEvt) (aiId : Nat) (raw : Str)
    (msgs : List Message) : List Message :=
  if raw.take 6 = dataMarker then
    match parse (raw.drop 6) with
    | some evt => processEvt aiId evt msgs
    | none => msgs
  else msgs

/-- The whitespace set of JS `String.prototype.trim`, restricted to the ASCII
whitespace characters that can occur here. -/
def isJsSpace (c : Char) : Bool :=
  c = ' ' || c = '\t' || c = '\n' || c = '\r' || c = '\x0b' || c = '\x0c'

/-- JS `String.prototype.trim`: drop whitespace from both ends. -/
def jsTrim (s : Str) : Str :=
  ((s.dropWhile isJsSpace).reverse.dropWhile isJsSpace).reverse

/-- Index of the first occurrence of the two-character boundary `'\n\n'`
(`buffer.indexOf('\n\n')`), `none` when there is no occurrence. -/
def idxNN : Str → Option Nat
  | [] => none
  | [_] => none
  | a :: b :: rest =>
    if a = '\n' ∧ b = '\n' then some 0
    else (idxNN (b :: rest)).map (· + 1)

/-- State of the framer: the carried-over `buffer`, the transcript `msgs`, and
ghost state `frames` recording, in order, the trimmed non-empty frames handed
to the dispatcher (used to state chunk-boundary invariance of the processed
frame sequence; it affects nothing else). -/
structure FrameSt where
  buffer : Str
  msgs : List Message
  frames : List Str
deriving DecidableEq, Repr

/-- One iteration of the inner while-loop of the read loop (`ChatInterface.jsx`
lines 86–109), given that `'\n\n'` occurs at index `i`: slice off and trim the
frame, keep the rest of the buffer, skip empty frames (`if (!raw) continue`),
otherwise dispatch the frame. -/
def stepSt (parse : Str → Option ParsedEvt) (aiId : Nat) (st : FrameSt) (i : Nat) : FrameSt :=
  let raw := jsTrim (st.buffer.take i)
  let rest := st.buffer.drop (i + 2)
  if raw = [] then { st with buffer := rest }
  else { buffer := rest, msgs := processRaw parse aiId raw st.msgs,
         frames := st.frames ++ [raw] }

/-- The inner while-loop (`while ((idx = buffer.indexOf('\n\n')) !== -1)`),
written with explicit fuel so that it is structurally recursive and hence
kernel-evaluable.  Each iteration removes at least two characters from the
buffer, so `st.buffer.length` is always enough fuel. -/
def frameLoopAux (parse : Str → Option ParsedEvt) (aiId : Nat) :
    Nat → FrameSt → FrameSt
  | 0, st => st
  | fuel + 1, st =>
    match idxNN st.buffer with
    | none => st
    | some i => frameLoopAux parse aiId fuel (stepSt parse aiId st i)

/-- The inner while-loop of the read loop, run to completion. -/
def frameLoop (parse : Str → Option ParsedEvt) (aiId : Nat) (st : FrameSt) : FrameSt :=
  frameLoopAux parse aiId st.buffer.length st

/-- Append freshly decoded characters to the carried-over buffer
(`buffer += decoder.decode(value, {stream: true})`). -/
def addBuf (st : FrameSt) (s : Str) : FrameSt :=
  { st with buffer := st.buffer ++ s }

/-- State of the incremental UTF-8 decoder, following the WHATWG `TextDecoder`
algorithm: the partially assembled code point, how many continuation bytes are
still needed, and the admissible range for the next continuation byte. -/
structure Utf8State where
  codepoint : Nat
  needed : Nat
  lower : Nat
  upper : Nat
deriving DecidableEq, Repr

/-- Initial (and between-characters) decoder state. -/
def utf8Init : Utf8State := ⟨0, 0, 0x80, 0xBF⟩

/-- The replacement character U+FFFD emitted for invalid input. -/
def replChar : Char := '�'

/-- Decoder transition on a byte arriving in the between-characters state:
ASCII is emitted directly, lead bytes open a multi-byte sequence (with the
WHATWG bounds excluding overlong forms and surrogates), anything else yields
U+FFFD. -/
def utf8Start (b : Nat) : Utf8State × List Char :=
  if b ≤ 0x7F then (utf8Init, [Char.ofNat b])
  else if 0xC2 ≤ b ∧ b ≤ 0xDF then
    ({ codepoint := b &&& 0x1F, needed := 1, lower := 0x80, upper := 0xBF }, [])
  else if 0xE0 ≤ b ∧ b ≤ 0xEF then
    ({ codepoint := b &&& 0xF, needed := 2,
       lower := if b = 0xE0 then 0xA0 else 0x80,
       upper := if b = 0xED then 0x9F else 0xBF }, [])
  else if 0xF0 ≤ b ∧ b ≤ 0xF4 then
    ({ codepoint := b &&& 0x7, needed := 3,
       lower := if b = 0xF0 then 0x90 else 0x80,
       upper := if b = 0xF4 then 0x8F else 0xBF }, [])
  else (utf8Init, [replChar])

/-- Decoder transition on one byte.  In the middle of a sequence, an
in-range continuation byte extends (and possibly completes) the code point;
an out-of-range byte emits U+FFFD and is reprocessed as a fresh start, exactly
as in the WHATWG algorithm (the byte is "prepended to the stream").  Because
`decoder.decode` is only ever called with `{stream: true}`, a trailing
incomplete sequence stays in the state and is never flushed. -/
def utf8Step (st : Utf8State) (b : Nat) : Utf8State × List Char :=
  if st.needed = 0 then utf8Start b
  else if st.lower ≤ b ∧ b ≤ st.upper then
    let cp := (st.codepoint <<< 6) ||| (b &&& 0x3F)
    if st.needed = 1 then (utf8Init, [Char.ofNat cp])
    else ({ codepoint := cp, needed := st.needed - 1, lower := 0x80, upper := 0xBF }, [])
  else
    let r := utf8Start b
    (r.1, replChar :: r.2)

/-- Decode one chunk of bytes, threading the decoder state and accumulating
the emitted characters. -/
def utf8DecodeChunk (st : Utf8State) (bytes : List Nat) : Utf8State × Str :=
  bytes.foldl
    (fun p b =>
      let r := utf8Step p.1 b
      (r.1, p.2 ++ r.2))
    (st, ([] : Str))

/-- State of the whole read loop: decoder state plus framer state. -/
structure StreamState where
  dec : Utf8State
  fr : FrameSt
deriving DecidableEq, Repr

/-- The read-loop state at entry: fresh decoder, empty buffer (`let buffer =
''`), the transcript as it stands, nothing processed yet. -/
def initState (msgs : List Message) : StreamState :=
  { dec := utf8Init, fr := { buffer := [], msgs := msgs, frames := [] } }

/-- One iteration of the outer read loop (`ChatInterface.jsx` lines 80–110):
decode the arriving chunk, append to the buffer, drain all complete frames. -/
def processChunk (parse : Str → Option ParsedEvt) (aiId : Nat)
    (st : StreamState) (chunk : List Nat) : StreamState :=
  let d := utf8DecodeChunk st.dec chunk
  { dec := d.1, fr := frameLoop parse aiId (addBuf st.fr d.2) }

/-- The outer read loop over the whole sequence of arriving chunks.  When the
reader reports `done` the loop just breaks: whatever remains in the buffer is
discarded, which is why the final transcript is read off `.fr.msgs` alone. -/
def readLoop (parse : Str → Option ParsedEvt) (aiId : Nat)
    (chunks : List (List Nat)) (st : StreamState) : StreamState :=
  chunks.foldl (processChunk parse aiId) st

/-- The role string `'user'`. -/
def userRole : Str := "user".toList

/-- The role string `'assistant'`. -/
def assistantRole : Str := "assistant".toList

/-- The fixed error text of the catch block (`ChatInterface.jsx` line 115). -/
def errorText : Str := "오류가 발생했습니다. 다시 시도해주세요.".toList

/-- The placeholder assistant message inserted before the fetch
(`ChatInterface.jsx` line 47): empty text, empty sources array. -/
def placeholderMsg (aiId : Nat) : Message :=
  { id := aiId, text := [], role := assistantRole, sources := some [] }

/-- The error message appended by the catch block (`ChatInterface.jsx` lines
113–118), where `t3` is the `Date.now()` reading at that moment. -/
def errorMsg (t3 : Nat) : Message :=
  { id := t3 + 1, text := errorText, role := assistantRole, sources := none }

/-- How one send terminates: `ok chunks` — the stream delivered `chunks` and
then reported `done`; `err chunks t3` — after delivering `chunks` the transport
threw (this also covers `!res.body` and a rejected fetch, with `chunks = []`),
and the catch block ran with `Date.now() = t3`. -/
inductive Outcome where
  | ok (chunks : List (List Nat))
  | err (chunks : List (List Nat)) (t3 : Nat)
deriving DecidableEq, Repr

/-- `sendMessage` of `ChatInterface.jsx` (lines 28–123), with the two
`Date.now()` readings passed in: `t1` at user-message creation (line 32) and
`t2` at placeholder creation (line 46, id `t2 + 1`).  A blank query is a no-op
(line 29).  The user message and the placeholder are appended before any byte
of the response is consumed; the read loop then runs over the delivered
chunks, and on a transport error the catch block appends `errorMsg t3` while
leaving everything else as it stands. -/
def sendMessage (parse : Str → Option ParsedEvt) (text : Str) (t1 t2 : Nat)
    (outcome : Outcome) (msgs : List Message) : List Message :=
  if jsTrim text = [] then msgs
  else
    let userMessage : Message := { id := t1, text := text, role := userRole, sources := none }
    let allMessages := msgs ++ [userMessage]
    let aiId := t2 + 1
    let withPlaceholder := allMessages ++ [placeholderMsg aiId]
    match outcome with
    | Outcome.ok chunks =>
        (readLoop parse aiId chunks (initState withPlaceholder)).fr.msgs
    | Outcome.err chunks t3 =>
        (readLoop parse aiId chunks (initState withPlaceholder)).fr.msgs ++ [errorMsg t3]

/-- One invocation of `sendMessage` in a session: its query text, the two
`Date.now()` readings, and how the stream ended. -/
structure SendCall where
  text : Str
  t1 : Nat
  t2 : Nat
  outcome : Outcome
deriving DecidableEq, Repr

/-- A whole session: the transcript after a sequence of sends. -/
def runSession (parse : Str → Option ParsedEvt) (calls : List SendCall)
    (msgs : List Message) : List Message :=
  calls.foldl (fun ms c => sendMessage parse c.text c.t1 c.t2 c.outcome ms) msgs

/-- The `Date.now()` readings a call takes, in order: user-message creation,
placeholder creation, and (on a transport error) error-message creation. -/
def callReadings (c : SendCall) : List Nat :=
  match c.outcome with
  | Outcome.ok _ => [c.t1, c.t2]
  | Outcome.err _ t3 => [c.t1, c.t2, t3]

/-- All clock readings of a session, in order. -/
def sessionReadings (calls : List SendCall) : List Nat :=
  (calls.map callReadings).flatten

/-- `spacedFromB b rs` holds when the readings `rs` start at or above `b` and
each subsequent reading exceeds the previous one by at least 2. -/
def spacedFromB (b : Nat) : List Nat → Bool
  | [] => true
  | x :: xs => decide (b ≤ x) && spacedFromB (x + 2) xs

/-- The lower bound for the reading following a block of readings. -/
def boundAfter (b : Nat) (xs : List Nat) : Nat :=
  xs.foldl (fun _ x => x + 2) b

/-- The ids of a transcript, in order. -/
def idsOf (msgs : List Message) : List Nat := msgs.map Message.id

/-- The session-id initializer (`ChatInterface.jsx` lines 10–18).  `store` is
the current `localStorage` value under `'ssu_rag_session_id'` (`none` when
absent), `fresh` the id that would be freshly generated on this call.  Returns
the id handed to the caller together with the storage contents afterwards.
A stored empty string is falsy (`if (existing) return existing`), so it is
regenerated rather than returned. -/
def getOrCreateSessionId (store : Option Str) (fresh : Str) : Str × Option Str :=
  match store with
  | some existing => if existing = [] then (fresh, some fresh) else (existing, some existing)
  | none => (fresh, some fresh)

/-- The base-36 digit characters used by JS `Number.prototype.toString(36)`. -/
def digitChar36 (d : Nat) : Char :=
  if d < 10 then Char.ofNat (48 + d) else Char.ofNat (87 + d)

/-- Base-36 fraction digits of `k / 2 ^ 53`, by repeated multiplication; the
expansion is exact and terminates within 53 digits because `2 ^ 53` divides
`36 ^ 53`. -/
def fracDigits36 : Nat → Nat → Str
  | 0, _ => []
  | fuel + 1, k =>
    if k = 0 then []
    else
      let k36 := k * 36
      digitChar36 (k36 / 2 ^ 53) :: fracDigits36 fuel (k36 % 2 ^ 53)

/-- Model of the JS builtin chain `x.toString(36)` for `x = k / 2 ^ 53`, the
shape of every `Math.random()` result: `0` prints as `'0'`, any other value as
`'0.'` followed by its (exact, non-empty) base-36 fraction digits. -/
def randomToString36 (k : Nat) : Str :=
  if k = 0 then ['0']
  else '0' :: '.' :: fracDigits36 53 k

/-- The fallback id `Math.random().toString(36).slice(2)` of
`ChatInterface.jsx` line 15, as a function of the 53-bit draw `k`. -/
def fallbackSessionId (k : Nat) : Str :=
  (randomToString36 k).drop 2

/-- Whether the stored session id, if present, is non-empty. -/
def storedOkB : Option Str → Bool
  | some s => !s.isEmpty
  | none => true

/-- A parsed token event, as produced by `JSON.parse` on
`'{"type":"token","content": c}'`. -/
def tokenEvt (c : Str) : ParsedEvt :=
  { type := tokenType, content := some c, answer := none, sources := none }

/-- A parsed final event, as produced by `JSON.parse` on a final payload. -/
def finalEvt (ans : Str) (srcs : Option (List Str)) : ParsedEvt :=
  { type := finalType, content := none, answer := some ans, sources := srcs }

/-- A payload parser that fails on everything (used to instantiate
parser-generic theorems). -/
def noParse : Str → Option ParsedEvt := fun _ => none

/-- A sample payload parser for instantiating parser-generic theorems: every
non-empty payload is a well-formed token event carrying the payload itself,
the empty payload is malformed. -/
def demoParse : Str → Option ParsedEvt :=
  fun s => if s = [] then none else some (tokenEvt s)

/-- Byte encoding of an ASCII string (every character below `0x80`). -/
def asciiBytes (s : String) : List Nat :=
  s.toList.map Char.toNat

/-- A concrete two-send session with well-spaced clock readings: the first
send fails on the transport, the second completes with an empty stream. -/
def demoCalls : List SendCall :=
  [⟨"hi".toList, 0, 2, Outcome.err [] 4⟩, ⟨"yo".toList, 6, 8, Outcome.ok []⟩]

/-! ### Properties of the boundary search `idxNN` -/

/-- A boundary found at `i` lies wholly inside the buffer. -/
theorem idxNN_le {l : Str} {i : Nat} (h : idxNN l = some i) : i + 2 ≤ l.length := by
  induction l generalizing i with
  | nil => simp [idxNN] at h
  | cons a t ih =>
    cases t with
    | nil => simp [idxNN] at h
    | cons b r =>
      rw [idxNN] at h
      split at h
      · cases h
        simp
      · cases hr : idxNN (b :: r) with
        | none => rw [hr] at h; simp at h
        | some j =>
          rw [hr] at h
          simp only [Option.map_some'] at h
          cases h
          have := ih hr
          simp only [List.length_cons] at *
          omega

/-- The first boundary of a buffer stays the first boundary after appending
more data (appending cannot create an earlier occurrence). -/
theorem idxNN_append {l : Str} {i : Nat} (s : Str) (h : idxNN l = some i) :
    idxNN (l ++ s) = some i := by
  induction l generalizing i with
  | nil => simp [idxNN] at h
  | cons a t ih =>
    cases t with
    | nil => simp [idxNN] at h
    | cons b r =>
      rw [idxNN] at h
      rw [List.cons_append, List.cons_append, idxNN]
      split at h <;> rename_i hcond
      · cases h
        rw [if_pos hcond]
      · rw [if_neg hcond]
        cases hr : idxNN (b :: r) with
        | none => rw [hr] at h; simp at h
        | some j =>
          rw [hr] at h
          simp only [Option.map_some'] at h
          cases h
          have hs := ih hr
          rw [List.cons_append] at hs
          rw [hs]
          rfl

/-! ### Properties of the frame-draining loop -/

/-- With no boundary in the buffer the loop body never runs. -/
theorem frameLoopAux_of_none (parse : Str → Option ParsedEvt) (aiId : Nat)
    (fuel : Nat) {st : FrameSt} (h : idxNN st.buffer = none) :
    frameLoopAux parse aiId fuel st = st := by
  cases fuel with
  | zero => rfl
  | succ n => simp only [frameLoopAux, h]

/-- Both branches of a loop iteration just drop `i + 2` buffer characters. -/
theorem stepSt_buffer (parse : Str → Option ParsedEvt) (aiId : Nat) (st : FrameSt) (i : Nat) :
    (stepSt parse aiId st i).buffer = st.buffer.drop (i + 2) := by
  simp only [stepSt]
  split <;> rfl

/-- Any fuel at least the buffer length drains the same frames. -/
theorem frameLoopAux_congr (parse : Str → Option ParsedEvt) (aiId : Nat) :
    ∀ (f1 f2 : Nat) (st : FrameSt), st.buffer.length ≤ f1 → st.buffer.length ≤ f2 →
      frameLoopAux parse aiId f1 st = frameLoopAux parse aiId f2 st := by
  intro f1
  induction f1 with
  | zero =>
    intro f2 st h1 _
    have hb : st.buffer = [] := List.length_eq_zero.mp (Nat.le_zero.mp h1)
    have hn : idxNN st.buffer = none := by rw [hb]; rfl
    rw [frameLoopAux_of_none parse aiId f2 hn]
    rfl
  | succ n ih =>
    intro f2 st h1 h2
    cases hidx : idxNN st.buffer with
    | none => rw [frameLoopAux_of_none _ _ _ hidx, frameLoopAux_of_none _ _ _ hidx]
    | some i =>
      have hle := idxNN_le hidx
      cases f2 with
      | zero => omega
      | succ m =>
        have e1 : frameLoopAux parse aiId (n + 1) st
            = frameLoopAux parse aiId n (stepSt parse aiId st i) := by
          simp only [frameLoopAux, hidx]
        have e2 : frameLoopAux parse aiId (m + 1) st
            = frameLoopAux parse aiId m (stepSt parse aiId st i) := by
          simp only [frameLoopAux, hidx]
        rw [e1, e2]
        have hlen : (stepSt parse aiId st i).buffer.length = st.buffer.length - (i + 2) := by
          rw [stepSt_buffer, List.length_drop]
        apply ih <;> omega

/-- With no boundary in the buffer the drained loop is the identity. -/
theorem frameLoop_none (parse : Str → Option ParsedEvt) (aiId : Nat)
    {st : FrameSt} (h : idxNN st.buffer = none) : frameLoop parse aiId st = st :=
  frameLoopAux_of_none parse aiId _ h

/-- Unfolding one iteration of the drained loop. -/
theorem frameLoop_some (parse : Str → Option ParsedEvt) (aiId : Nat)
    {st : FrameSt} {i : Nat} (h : idxNN st.buffer = some i) :
    frameLoop parse aiId st = frameLoop parse aiId (stepSt parse aiId st i) := by
  have hle := idxNN_le h
  have hlen : (stepSt parse aiId st i).buffer.length = st.buffer.length - (i + 2) := by
    rw [stepSt_buffer, List.length_drop]
  unfold frameLoop
  have hpos : st.buffer.length = (st.buffer.length - 1) + 1 := by omega
  rw [hpos]
  have e1 : frameLoopAux parse aiId ((st.buffer.length - 1) + 1) st
      = frameLoopAux parse aiId (st.buffer.length - 1) (stepSt parse aiId st i) := by
    simp only [frameLoopAux, h]
  rw [e1]
  apply frameLoopAux_congr <;> omega

/-- After draining, the buffer holds no boundary. -/
theorem frameLoopAux_idx_none (parse : Str → Option ParsedEvt) (aiId : Nat) :
    ∀ (fuel : Nat) (st : FrameSt), st.buffer.length ≤ fuel →
      idxNN (frameLoopAux parse aiId fuel st).buffer = none := by
  intro fuel
  induction fuel with
  | zero =>
    intro st h
    have hb : st.buffer = [] := List.length_eq_zero.mp (Nat.le_zero.mp h)
    simp only [frameLoopAux]
    rw [hb]
    rfl
  | succ n ih =>
    intro st h
    cases hidx : idxNN st.buffer with
    | none => rw [frameLoopAux_of_none _ _ _ hidx]; exact hidx
    | some i =>
      have hle := idxNN_le hidx
      have e : frameLoopAux parse aiId (n + 1) st
          = frameLoopAux parse aiId n (stepSt parse aiId st i) := by
        simp only [frameLoopAux, hidx]
      rw [e]
      apply ih
      rw [stepSt_buffer, List.length_drop]
      omega

/-- After draining, the buffer holds no boundary. -/
theorem frameLoop_idx_none (parse : Str → Option ParsedEvt) (aiId : Nat) (st : FrameSt) :
    idxNN (frameLoop parse aiId st).buffer = none :=
  frameLoopAux_idx_none parse aiId _ st (Nat.le_refl _)

/-- The streaming identity of the framer: draining after appending new data
equals draining first and then draining the leftover with the new data
appended.  This is what makes frame splitting chunk-boundary-invariant. -/
theorem frameLoop_append (parse : Str → Option ParsedEvt) (aiId : Nat) :
    ∀ (n : Nat) (st : FrameSt) (s : Str), st.buffer.length ≤ n →
      frameLoop parse aiId (addBuf st s)
        = frameLoop parse aiId (addBuf (frameLoop parse aiId st) s) := by
  intro n
  induction n with
  | zero =>
    intro st s h
    have hb : st.buffer = [] := List.length_eq_zero.mp (Nat.le_zero.mp h)
    have hn : idxNN st.buffer = none := by rw [hb]; rfl
    rw [frameLoop_none parse aiId hn]
  | succ n ih =>
    intro st s h
    cases hidx : idxNN st.buffer with
    | none => rw [frameLoop_none parse aiId hidx]
    | some i =>
      have hle := idxNN_le hidx
      have hidx2 : idxNN (addBuf st s).buffer = some i := by
        simp only [addBuf]
        exact idxNN_append s hidx
      rw [frameLoop_some parse aiId hidx2, frameLoop_some parse aiId hidx]
      have h1 : i - st.buffer.length = 0 := by omega
      have h2 : (i + 2) - st.buffer.length = 0 := by omega
      have hstep : stepSt parse aiId (addBuf st s) i = addBuf (stepSt parse aiId st i) s := by
        simp only [stepSt, addBuf, List.take_append_eq_append_take,
          List.drop_append_eq_append_drop, h1, h2, List.take_zero, List.drop_zero,
          List.append_nil]
        split <;> rfl
      rw [hstep]
      apply ih
      rw [stepSt_buffer, List.length_drop]
      omega

/-! ### Properties of the incremental UTF-8 decoder -/

/-- The characters already emitted are a passive accumulator of the decoding
fold. -/
theorem utf8DecodeChunk_acc : ∀ (bytes : List Nat) (st : Utf8State) (o : Str),
    bytes.foldl
        (fun p b =>
          let r := utf8Step p.1 b
          (r.1, p.2 ++ r.2))
        (st, o)
      = ((utf8DecodeChunk st bytes).1, o ++ (utf8DecodeChunk st bytes).2) := by
  intro bytes
  induction bytes with
  | nil => intro st o; simp [utf8DecodeChunk]
  | cons b bs ih =>
    intro st o
    show List.foldl _ ((utf8Step st b).1, o ++ (utf8Step st b).2) bs = _
    rw [ih]
    have e : utf8DecodeChunk st (b :: bs)
        = ((utf8DecodeChunk (utf8Step st b).1 bs).1,
           (utf8Step st b).2 ++ (utf8DecodeChunk (utf8Step st b).1 bs).2) := by
      show List.foldl _ ((utf8Step st b).1, [] ++ (utf8Step st b).2) bs = _
      rw [List.nil_append, ih]
    rw [e]
    simp [List.append_assoc]

/-- Decoding a concatenation of byte chunks equals decoding them in turn:
a partial multi-byte sequence at a chunk boundary is carried in the decoder
state. -/
theorem utf8DecodeChunk_append (st : Utf8State) (b1 b2 : List Nat) :
    utf8DecodeChunk st (b1 ++ b2)
      = ((utf8DecodeChunk (utf8DecodeChunk st b1).1 b2).1,
         (utf8DecodeChunk st b1).2 ++ (utf8DecodeChunk (utf8DecodeChunk st b1).1 b2).2) := by
  have h := utf8DecodeChunk_acc b2 (utf8DecodeChunk st b1).1 (utf8DecodeChunk st b1).2
  rw [← h]
  have e : ((utf8DecodeChunk st b1).1, (utf8DecodeChunk st b1).2) = utf8DecodeChunk st b1 := rfl
  rw [e]
  unfold utf8DecodeChunk
  rw [List.foldl_append]

/-! ### Properties of the read loop -/

/-- Splitting an arriving chunk in two does not change the read-loop state. -/
theorem processChunk_append (parse : Str → Option ParsedEvt) (aiId : Nat)
    (st : StreamState) (c1 c2 : List Nat) :
    processChunk parse aiId st (c1 ++ c2)
      = processChunk parse aiId (processChunk parse aiId st c1) c2 := by
  simp only [processChunk, utf8DecodeChunk_append]
  congr 1
  have e : addBuf st.fr
        ((utf8DecodeChunk st.dec c1).2 ++ (utf8DecodeChunk (utf8DecodeChunk st.dec c1).1 c2).2)
      = addBuf (addBuf st.fr (utf8DecodeChunk st.dec c1).2)
          (utf8DecodeChunk (utf8DecodeChunk st.dec c1).1 c2).2 := by
    simp [addBuf, List.append_assoc]
  rw [e]
  exact frameLoop_append parse aiId (addBuf st.fr (utf8DecodeChunk st.dec c1).2).buffer.length
    _ _ (Nat.le_refl _)

/-- The read loop over any chunking equals one pass over the concatenated
bytes, provided the starting buffer is already drained. -/
theorem readLoop_flatten (parse : Str → Option ParsedEvt) (aiId : Nat) :
    ∀ (chunks : List (List Nat)) (st : StreamState), idxNN st.fr.buffer = none →
      readLoop parse aiId chunks st = processChunk parse aiId st chunks.flatten := by
  intro chunks
  induction chunks with
  | nil =>
    intro st h
    simp only [readLoop, List.foldl_nil, List.flatten_nil, processChunk]
    have e1 : addBuf st.fr (utf8DecodeChunk st.dec []).2 = st.fr := by
      simp [addBuf, utf8DecodeChunk]
    rw [e1, frameLoop_none parse aiId h]
    rfl
  | cons c cs ih =>
    intro st h
    have h2 : idxNN (processChunk parse aiId st c).fr.buffer = none := by
      simp only [processChunk]
      exact frameLoop_idx_none parse aiId _
    calc readLoop parse aiId (c :: cs) st
        = readLoop parse aiId cs (processChunk parse aiId st c) := by
          simp [readLoop]
      _ = processChunk parse aiId (processChunk parse aiId st c) cs.flatten := ih _ h2
      _ = processChunk parse aiId st (c ++ cs.flatten) :=
          (processChunk_append parse aiId st c cs.flatten).symm
      _ = processChunk parse aiId st ((c :: cs).flatten) := by rw [List.flatten_cons]

/-! ### The event dispatch on token and final events -/

/-- Updating every target message by appending the empty string changes
nothing. -/
theorem map_guard_nil_append (aiId : Nat) (msgs : List Message) :
    (msgs.map fun m =>
        if m.id = aiId then { m with text := m.text ++ ([] : Str) } else m) = msgs := by
  have e : (fun m : Message =>
        if m.id = aiId then { m with text := m.text ++ ([] : Str) } else m)
      = fun m => m := by
    funext m
    by_cases h : m.id = aiId
    · rw [if_pos h, List.append_nil]
    · rw [if_neg h]
  rw [e, List.map_id']

/-- A token event appends its content to the target message (a token with
empty content is skipped by the truthiness guard, which is the same thing). -/
theorem processEvt_token (aiId : Nat) (c : Str) (msgs : List Message) :
    processEvt aiId (tokenEvt c) msgs
      = msgs.map fun m => if m.id = aiId then { m with text := m.text ++ c } else m := by
  have hm : ¬tokenType = metaType := by decide
  by_cases hc : c = []
  · subst hc
    rw [map_guard_nil_append]
    simp [processEvt, tokenEvt, truthyS, hm]
  · simp [processEvt, tokenEvt, truthyS, applyToken, hc]

/-- Folding any number of token events appends the concatenation of their
contents to the target message and leaves every other message unchanged. -/
theorem tokenFold_eq (aiId : Nat) : ∀ (cs : List Str) (msgs : List Message),
    (cs.map tokenEvt).foldl (fun ms e => processEvt aiId e ms) msgs
      = msgs.map fun m => if m.id = aiId then { m with text := m.text ++ cs.flatten } else m := by
  intro cs
  induction cs with
  | nil =>
    intro msgs
    simp only [List.map_nil, List.foldl_nil, List.flatten_nil]
    rw [map_guard_nil_append]
  | cons c cs ih =>
    intro msgs
    simp only [List.map_cons, List.foldl_cons]
    rw [processEvt_token, ih, List.map_map]
    have e : ((fun m : Message =>
            if m.id = aiId then { m with text := m.text ++ cs.flatten } else m)
          ∘ (fun m : Message =>
            if m.id = aiId then { m with text := m.text ++ c } else m))
        = fun m => if m.id = aiId then { m with text := m.text ++ (c :: cs).flatten } else m := by
      funext m
      simp only [Function.comp_apply]
      by_cases h : m.id = aiId
      · rw [if_pos h]
        simp [h, List.flatten_cons, List.append_assoc]
      · rw [if_neg h, if_neg h, if_neg h]
    rw [e]

/-- A final event with a non-empty answer overwrites the target text wholesale
and takes the frame's sources when present, keeping the old ones otherwise. -/
theorem processEvt_final (aiId : Nat) (ans : Str) (srcs : Option (List Str))
    (msgs : List Message) (hans : ans ≠ []) :
    processEvt aiId (finalEvt ans srcs) msgs
      = msgs.map fun m =>
          if m.id = aiId then { m with text := ans, sources := jsOr srcs m.sources } else m := by
  have hm : ¬finalType = metaType := by decide
  simp [processEvt, finalEvt, truthyS, hans, hm]

/-- Flattening singleton chunks recovers the byte stream. -/
theorem flatten_singletons (l : List Nat) : (l.map fun b => [b]).flatten = l := by
  induction l with
  | nil => rfl
  | cons a t ih => simp [ih]

/-- Claim C1: for a stream consisting only of token frames with contents
`c1 … cn` (no final frame), the read loop's dispatch leaves the transcript
with the placeholder's text extended by the concatenation `c1 ++ … ++ cn` in
arrival order, and every message other than the placeholder entirely
unchanged.  (Starting from the freshly inserted placeholder, whose text is
empty, its text is exactly the concatenation.) -/
theorem token_frames_concat (aiId : Nat) (cs : List Str) (msgs : List Message) :
    (cs.map tokenEvt).foldl (fun ms e => processEvt aiId e ms) msgs
      = msgs.map fun m => if m.id = aiId then { m with text := m.text ++ cs.flatten } else m :=
  tokenFold_eq aiId cs msgs

/-- Claim C2: a final frame carrying a (non-empty, hence truthy) answer after
any number of token frames replaces the placeholder's text wholesale with
that answer, discarding the accumulated token concatenation; its sources
replace the accumulated ones only when the frame provides them
(`evt.sources || m.sources`), and are retained otherwise. -/
theorem final_frame_overrides (aiId : Nat) (cs : List Str) (ans : Str)
    (srcs : Option (List Str)) (msgs : List Message) (hans : ans ≠ []) :
    ((cs.map tokenEvt) ++ [finalEvt ans srcs]).foldl (fun ms e => processEvt aiId e ms) msgs
      = msgs.map fun m =>
          if m.id = aiId then { m with text := ans, sources := jsOr srcs m.sources } else m := by
  rw [List.foldl_append, tokenFold_eq]
  simp only [List.foldl_cons, List.foldl_nil]
  rw [processEvt_final aiId ans srcs _ hans, List.map_map]
  have e : ((fun m : Message =>
          if m.id = aiId then { m with text := ans, sources := jsOr srcs m.sources } else m)
        ∘ (fun m : Message =>
          if m.id = aiId then { m with text := m.text ++ cs.flatten } else m))
      = fun m => if m.id = aiId then { m with text := ans, sources := jsOr srcs m.sources }
                 else m := by
    funext m
    simp only [Function.comp_apply]
    by_cases h : m.id = aiId
    · rw [if_pos h]
      simp [h]
    · rw [if_neg h, if_neg h]
  rw [e]

/-- Witness for C2: the spec's Scenario A, `'Hel'`, `'lo'`, then the final
answer `'Hello!'`. -/
theorem final_frame_overrides_witness :
    "Hello!".toList ≠ [] ∧
    ((["Hel".toList, "lo".toList].map tokenEvt
        ++ [finalEvt "Hello!".toList none]).foldl
          (fun ms e => processEvt 1 e ms) [placeholderMsg 1]
      = [placeholderMsg 1].map fun m =>
          if m.id = 1 then { m with text := "Hello!".toList, sources := jsOr none m.sources }
          else m) :=
  ⟨by decide,
   final_frame_overrides 1 ["Hel".toList, "lo".toList] "Hello!".toList none
     [placeholderMsg 1] (by decide)⟩

/-- Claim C3: frame splitting is chunk-boundary-invariant.  Feeding a byte
stream in 1-byte chunks and feeding it as one whole buffer produce the same
final read-loop state: the same decoder state (partial multi-byte character
sequences are carried across chunks), the same leftover buffer (bytes after
the last blank-line boundary are carried across chunks), the same sequence of
processed frames (the ghost log), and hence the same transcript. -/
theorem chunk_boundary_invariant (parse : Str → Option ParsedEvt) (aiId : Nat)
    (bytes : List Nat) (msgs : List Message) :
    readLoop parse aiId (bytes.map fun b => [b]) (initState msgs)
      = readLoop parse aiId [bytes] (initState msgs) := by
  have h0 : idxNN (initState msgs).fr.buffer = none := rfl
  rw [readLoop_flatten parse aiId _ _ h0, readLoop_flatten parse aiId _ _ h0,
    flatten_singletons]
  simp

/-- Claim C4: a frame whose payload fails to parse mutates no message (and,
the dispatch being a total function, raises nothing), and a stream containing
such a frame processes exactly as the same stream with that frame removed —
every subsequent well-formed frame still applies normally. -/
theorem malformed_frame_harmless (parse : Str → Option ParsedEvt) (aiId : Nat)
    (fs1 fs2 : List Str) (bad : Str) (msgs : List Message)
    (h : parse (bad.drop 6) = none) :
    processRaw parse aiId bad msgs = msgs ∧
    (fs1 ++ bad :: fs2).foldl (fun ms r => processRaw parse aiId r ms) msgs
      = (fs1 ++ fs2).foldl (fun ms r => processRaw parse aiId r ms) msgs := by
  have hone : ∀ ms : List Message, processRaw parse aiId bad ms = ms := by
    intro ms
    unfold processRaw
    split
    · rw [h]
    · rfl
  refine ⟨hone msgs, ?_⟩
  simp only [List.foldl_append, List.foldl_cons, hone]

/-- Witness for C4: the payload-less frame `'data: '` is malformed under the
sample parser and drops out of a stream of otherwise well-formed frames. -/
theorem malformed_frame_harmless_witness :
    demoParse (("data: ".toList : Str).drop 6) = none ∧
    (processRaw demoParse 1 "data: ".toList [placeholderMsg 1] = [placeholderMsg 1] ∧
     (["data: x".toList] ++ "data: ".toList :: ["data: y".toList]).foldl
         (fun ms r => processRaw demoParse 1 r ms) [placeholderMsg 1]
       = (["data: x".toList] ++ ["data: y".toList]).foldl
           (fun ms r => processRaw demoParse 1 r ms) [placeholderMsg 1]) :=
  ⟨by decide,
   malformed_frame_harmless demoParse 1 ["data: x".toList] ["data: y".toList]
     "data: ".toList [placeholderMsg 1] (by decide)⟩

/-- Claim C9 (amended): the dispatch treats a frame as data exactly when the
whole trimmed frame begins with the six-character marker `'data: '`, in which
case the payload is everything after those six characters; any frame whose
first six characters are not the marker — even one containing a marker line
further down — causes no mutation, and in particular a frame with no marker
at all causes none. -/
theorem marker_prefix_dispatch (parse : Str → Option ParsedEvt) (aiId : Nat)
    (msgs : List Message) (rest : Str) :
    (processRaw parse aiId (dataMarker ++ rest) msgs
      = match parse rest with
        | some evt => processEvt aiId evt msgs
        | none => msgs)
    ∧ ∀ raw : Str, raw.take 6 ≠ dataMarker → processRaw parse aiId raw msgs = msgs := by
  constructor
  · rfl
  · intro raw hne
    unfold processRaw
    rw [if_neg hne]

/-- Witness for C9 (amended): a marker-led frame dispatches its payload, a
frame led by anything else is ignored. -/
theorem marker_prefix_dispatch_witness :
    (processRaw noParse 1 (dataMarker ++ "x".toList) []
      = match noParse "x".toList with
        | some evt => processEvt 1 evt []
        | none => [])
    ∧ ("y".toList.take 6 ≠ dataMarker ∧ processRaw noParse 1 "y".toList [] = []) :=
  ⟨(marker_prefix_dispatch noParse 1 [] "x".toList).1,
   by decide,
   (marker_prefix_dispatch noParse 1 [] "x".toList).2 "y".toList (by decide)⟩

/-- Counterexample to C9 as stated: the frame `'x\ndata: hi'` contains a
non-marker line followed by a marker line whose payload is well-formed under
the sample parser (under which `'hi'` parses to a token event, so applying it
would make the placeholder's text `'hi'`) — yet processing the frame mutates
nothing, because the marker check applies to the start of the whole frame,
not line by line.  The second conjunct shows the very same marker line,
standing alone as a frame, would have mutated the message. -/
theorem marker_line_not_applied_cex :
    (frameLoop demoParse 1
        ⟨"x\ndata: hi\n\n".toList, [placeholderMsg 1], []⟩).msgs = [placeholderMsg 1]
    ∧ processRaw demoParse 1 "data: hi".toList [placeholderMsg 1] ≠ [placeholderMsg 1] := by
  decide

/-- Claim C10: when the stream ends, bytes decoded after the last blank-line
boundary are discarded unprocessed: appending a final chunk that completes no
boundary changes neither the transcript nor the sequence of processed frames,
even if it is a well-formed payload frame lacking only its terminating blank
line. -/
theorem trailing_bytes_discarded (parse : Str → Option ParsedEvt) (aiId : Nat)
    (chunks : List (List Nat)) (extra : List Nat) (msgs : List Message)
    (h : idxNN ((readLoop parse aiId chunks (initState msgs)).fr.buffer
          ++ (utf8DecodeChunk (readLoop parse aiId chunks (initState msgs)).dec extra).2)
        = none) :
    (readLoop parse aiId (chunks ++ [extra]) (initState msgs)).fr.msgs
        = (readLoop parse aiId chunks (initState msgs)).fr.msgs
    ∧ (readLoop parse aiId (chunks ++ [extra]) (initState msgs)).fr.frames
        = (readLoop parse aiId chunks (initState msgs)).fr.frames := by
  have e : readLoop parse aiId (chunks ++ [extra]) (initState msgs)
      = processChunk parse aiId (readLoop parse aiId chunks (initState msgs)) extra := by
    unfold readLoop
    rw [List.foldl_append]
    rfl
  rw [e]
  simp only [processChunk]
  have hn : idxNN (addBuf (readLoop parse aiId chunks (initState msgs)).fr
      (utf8DecodeChunk (readLoop parse aiId chunks (initState msgs)).dec extra).2).buffer
      = none := by
    simpa [addBuf] using h
  rw [frameLoop_none parse aiId hn]
  exact ⟨rfl, rfl⟩

/-- Witness for C10: after one complete frame `'data: A\n\n'`, the trailing
unterminated frame `'data: B'` (well-formed under the sample parser) is
discarded without being processed. -/
theorem trailing_bytes_discarded_witness :
    idxNN ((readLoop demoParse 1 [asciiBytes "data: A\n\n"]
            (initState [placeholderMsg 1])).fr.buffer
        ++ (utf8DecodeChunk (readLoop demoParse 1 [asciiBytes "data: A\n\n"]
            (initState [placeholderMsg 1])).dec (asciiBytes "data: B")).2) = none
    ∧ ((readLoop demoParse 1 ([asciiBytes "data: A\n\n"] ++ [asciiBytes "data: B"])
          (initState [placeholderMsg 1])).fr.msgs
        = (readLoop demoParse 1 [asciiBytes "data: A\n\n"]
            (initState [placeholderMsg 1])).fr.msgs
      ∧ (readLoop demoParse 1 ([asciiBytes "data: A\n\n"] ++ [asciiBytes "data: B"])
          (initState [placeholderMsg 1])).fr.frames
        = (readLoop demoParse 1 [asciiBytes "data: A\n\n"]
            (initState [placeholderMsg 1])).fr.frames) :=
  ⟨by decide,
   trailing_bytes_discarded demoParse 1 [asciiBytes "data: A\n\n"] (asciiBytes "data: B")
     [placeholderMsg 1] (by decide)⟩

/-! ### Frame processing never creates, deletes or re-identifies messages -/

/-- A guarded per-message update that preserves ids preserves the id list. -/
theorem idsOf_guard_map (aiId : Nat) (upd : Message → Message)
    (h : ∀ m, (upd m).id = m.id) (msgs : List Message) :
    idsOf (msgs.map fun m => if m.id = aiId then upd m else m) = idsOf msgs := by
  induction msgs with
  | nil => rfl
  | cons m ms ih =>
    simp only [idsOf, List.map_cons] at ih ⊢
    rw [ih]
    congr 1
    by_cases hm : m.id = aiId
    · rw [if_pos hm]
      exact h m
    · rw [if_neg hm]

/-- `applyToken` preserves the id list. -/
theorem applyToken_ids (aiId : Nat) (token : Str) (msgs : List Message) :
    idsOf (applyToken aiId token msgs) = idsOf msgs :=
  idsOf_guard_map aiId (fun m => { m with text := m.text ++ token }) (fun _ => rfl) msgs

/-- `applyMeta` preserves the id list. -/
theorem applyMeta_ids (aiId : Nat) (meta : ParsedEvt) (msgs : List Message) :
    idsOf (applyMeta aiId meta msgs) = idsOf msgs := by
  unfold applyMeta
  cases meta.sources with
  | none => rfl
  | some srcs =>
    exact idsOf_guard_map aiId (fun m => { m with sources := some srcs }) (fun _ => rfl) msgs

/-- The event dispatch preserves the id list. -/
theorem processEvt_ids (aiId : Nat) (evt : ParsedEvt) (msgs : List Message) :
    idsOf (processEvt aiId evt msgs) = idsOf msgs := by
  unfold processEvt
  split
  · exact applyToken_ids aiId _ msgs
  · split
    · exact applyMeta_ids aiId _ msgs
    · split
      · exact idsOf_guard_map aiId
          (fun m => { m with text := evt.answer.getD [], sources := jsOr evt.sources m.sources })
          (fun _ => rfl) msgs
      · rfl

/-- Frame dispatch preserves the id list. -/
theorem processRaw_ids (parse : Str → Option ParsedEvt) (aiId : Nat) (raw : Str)
    (msgs : List Message) : idsOf (processRaw parse aiId raw msgs) = idsOf msgs := by
  unfold processRaw
  split
  · cases hp : parse (raw.drop 6) with
    | none => rfl
    | some evt => exact processEvt_ids aiId evt msgs
  · rfl

/-- One framer iteration preserves the id list. -/
theorem stepSt_ids (parse : Str → Option ParsedEvt) (aiId : Nat) (st : FrameSt) (i : Nat) :
    idsOf (stepSt parse aiId st i).msgs = idsOf st.msgs := by
  simp only [stepSt]
  split
  · rfl
  · exact processRaw_ids parse aiId _ st.msgs

/-- Draining frames preserves the id list. -/
theorem frameLoopAux_ids (parse : Str → Option ParsedEvt) (aiId : Nat) :
    ∀ (fuel : Nat) (st : FrameSt),
      idsOf (frameLoopAux parse aiId fuel st).msgs = idsOf st.msgs := by
  intro fuel
  induction fuel with
  | zero => intro st; rfl
  | succ n ih =>
    intro st
    cases hidx : idxNN st.buffer with
    | none => rw [frameLoopAux_of_none _ _ _ hidx]
    | some i =>
      have e : frameLoopAux parse aiId (n + 1) st
          = frameLoopAux parse aiId n (stepSt parse aiId st i) := by
        simp only [frameLoopAux, hidx]
      rw [e, ih, stepSt_ids]

/-- One outer-loop iteration preserves the id list. -/
theorem processChunk_ids (parse : Str → Option ParsedEvt) (aiId : Nat)
    (st : StreamState) (chunk : List Nat) :
    idsOf (processChunk parse aiId st chunk).fr.msgs = idsOf st.fr.msgs := by
  simp only [processChunk]
  rw [show frameLoop parse aiId (addBuf st.fr (utf8DecodeChunk st.dec chunk).2)
      = frameLoopAux parse aiId
          (addBuf st.fr (utf8DecodeChunk st.dec chunk).2).buffer.length
          (addBuf st.fr (utf8DecodeChunk st.dec chunk).2) from rfl]
  rw [frameLoopAux_ids]
  rfl

/-- The whole read loop preserves the id list: frames mutate messages in
place but never add, remove or renumber them. -/
theorem readLoop_ids (parse : Str → Option ParsedEvt) (aiId : Nat) :
    ∀ (chunks : List (List Nat)) (st : StreamState),
      idsOf (readLoop parse aiId chunks st).fr.msgs = idsOf st.fr.msgs := by
  intro chunks
  induction chunks with
  | nil => intro st; rfl
  | cons c cs ih =>
    intro st
    show idsOf (readLoop parse aiId cs (processChunk parse aiId st c)).fr.msgs = _
    rw [ih, processChunk_ids]

/-- Ids of a concatenation. -/
theorem idsOf_append (a b : List Message) : idsOf (a ++ b) = idsOf a ++ idsOf b :=
  List.map_append Message.id a b

/-! ### The send operation -/

/-- Claim C8: for a non-blank query, `sendMessage` appends the user message
and then the empty-text placeholder synchronously, before a single byte of
the response is consumed: for every outcome, the read loop starts from the
transcript already extended by both messages.  If the stream then yields zero
chunks and closes, the placeholder simply remains, present and empty, and no
error message is produced. -/
theorem eager_append_then_stream (parse : Str → Option ParsedEvt) (text : Str)
    (t1 t2 : Nat) (msgs : List Message) (hnb : jsTrim text ≠ []) :
    (sendMessage parse text t1 t2 (Outcome.ok []) msgs
        = msgs ++ [{ id := t1, text := text, role := userRole, sources := none },
                   placeholderMsg (t2 + 1)])
    ∧ (placeholderMsg (t2 + 1)).text = []
    ∧ (∀ outc : Outcome,
        sendMessage parse text t1 t2 outc msgs
          = match outc with
            | Outcome.ok chunks =>
                (readLoop parse (t2 + 1) chunks
                  (initState (msgs
                    ++ [{ id := t1, text := text, role := userRole, sources := none },
                        placeholderMsg (t2 + 1)]))).fr.msgs
            | Outcome.err chunks t3 =>
                (readLoop parse (t2 + 1) chunks
                  (initState (msgs
                    ++ [{ id := t1, text := text, role := userRole, sources := none },
                        placeholderMsg (t2 + 1)]))).fr.msgs ++ [errorMsg t3]) := by
  refine ⟨?_, rfl, ?_⟩
  · simp [sendMessage, hnb, readLoop, initState]
  · intro outc
    cases outc with
    | ok chunks => simp [sendMessage, hnb, List.append_assoc]
    | err chunks t3 => simp [sendMessage, hnb, List.append_assoc]

/-- Witness for C8: sending `'hi'` against an immediately closing stream. -/
theorem eager_append_then_stream_witness :
    jsTrim "hi".toList ≠ [] ∧
    ((sendMessage noParse "hi".toList 0 2 (Outcome.ok []) []
        = [] ++ [{ id := 0, text := "hi".toList, role := userRole, sources := none },
                 placeholderMsg 3])
     ∧ (placeholderMsg 3).text = []
     ∧ (∀ outc : Outcome,
         sendMessage noParse "hi".toList 0 2 outc []
           = match outc with
             | Outcome.ok chunks =>
                 (readLoop noParse 3 chunks
                   (initState ([]
                     ++ [{ id := 0, text := "hi".toList, role := userRole, sources := none },
                         placeholderMsg 3]))).fr.msgs
             | Outcome.err chunks t3 =>
                 (readLoop noParse 3 chunks
                   (initState ([]
                     ++ [{ id := 0, text := "hi".toList, role := userRole, sources := none },
                         placeholderMsg 3]))).fr.msgs ++ [errorMsg t3])) :=
  ⟨by decide, eager_append_then_stream noParse "hi".toList 0 2 [] (by decide)⟩

/-- Claim C5 (amended): if the transport throws before any byte arrives (a
rejected fetch or a missing response body), the transcript gains exactly one
new assistant message carrying the fixed error string; the placeholder is
left in place, unchanged and empty, not deleted or rolled back.  The error
message's id differs from the placeholder's id provided the clock advanced
(`t2 < t3`) between placeholder creation and the catch block — with both
`Date.now()` readings in the same millisecond the two ids coincide. -/
theorem error_message_appended (parse : Str → Option ParsedEvt) (text : Str)
    (t1 t2 t3 : Nat) (msgs : List Message) (hnb : jsTrim text ≠ []) (hlt : t2 < t3) :
    (sendMessage parse text t1 t2 (Outcome.err [] t3) msgs
        = msgs ++ [{ id := t1, text := text, role := userRole, sources := none },
                   placeholderMsg (t2 + 1), errorMsg t3])
    ∧ (errorMsg t3).id ≠ (placeholderMsg (t2 + 1)).id
    ∧ (placeholderMsg (t2 + 1)).text = []
    ∧ (errorMsg t3).text = errorText
    ∧ (errorMsg t3).role = assistantRole := by
  refine ⟨?_, ?_, rfl, rfl, rfl⟩
  · simp [sendMessage, hnb, readLoop, initState]
  · show t3 + 1 ≠ t2 + 1
    omega

/-- Witness for C5 (amended): a send at time 0 whose transport fails at
time 5. -/
theorem error_message_appended_witness :
    jsTrim "hi".toList ≠ [] ∧ (1 : Nat) < 5 ∧
    ((sendMessage noParse "hi".toList 0 1 (Outcome.err [] 5) []
        = [] ++ [{ id := 0, text := "hi".toList, role := userRole, sources := none },
                 placeholderMsg 2, errorMsg 5])
     ∧ (errorMsg 5).id ≠ (placeholderMsg 2).id
     ∧ (placeholderMsg 2).text = []
     ∧ (errorMsg 5).text = errorText
     ∧ (errorMsg 5).role = assistantRole) :=
  ⟨by decide, by decide,
   error_message_appended noParse "hi".toList 0 1 5 [] (by decide) (by decide)⟩

/-- Counterexample to C5 as stated: when the transport fails within the same
millisecond as placeholder creation (both `Date.now()` readings are 0), the
error message's id `Date.now() + 1 = 1` equals the placeholder's id — the
claim's "id distinct from the placeholder's" does not hold on the code.  The
rest of the claim (one new message with the fixed string, placeholder
unchanged and empty) does hold, as the amended theorem shows. -/
theorem error_id_collision_cex :
    (sendMessage noParse "hi".toList 0 0 (Outcome.err [] 0) []
      = [{ id := 0, text := "hi".toList, role := userRole, sources := none },
         placeholderMsg 1, errorMsg 0])
    ∧ (errorMsg 0).id = (placeholderMsg 1).id := by
  decide

/-! ### Uniqueness of message ids across a session -/

/-- The ids a non-blank send appends: the user message's `t1`, the
placeholder's `t2 + 1`, and on a transport error the error message's
`t3 + 1`. -/
theorem sendMessage_ids (parse : Str → Option ParsedEvt) (text : Str) (t1 t2 : Nat)
    (outc : Outcome) (msgs : List Message) (hb : jsTrim text ≠ []) :
    idsOf (sendMessage parse text t1 t2 outc msgs)
      = idsOf msgs ++ t1 :: (t2 + 1) ::
          (match outc with
           | Outcome.ok _ => []
           | Outcome.err _ t3 => [t3 + 1]) := by
  cases outc with
  | ok chunks =>
    simp only [sendMessage, if_neg hb]
    rw [readLoop_ids]
    show idsOf ((msgs ++ [{ id := t1, text := text, role := userRole, sources := none }])
        ++ [placeholderMsg (t2 + 1)]) = _
    rw [idsOf_append, idsOf_append]
    simp [idsOf, placeholderMsg]
  | err chunks t3 =>
    simp only [sendMessage, if_neg hb]
    rw [idsOf_append, readLoop_ids]
    show idsOf ((msgs ++ [{ id := t1, text := text, role := userRole, sources := none }])
        ++ [placeholderMsg (t2 + 1)]) ++ idsOf [errorMsg t3] = _
    rw [idsOf_append, idsOf_append]
    simp [idsOf, placeholderMsg, errorMsg]

/-- A blank send leaves the transcript untouched. -/
theorem sendMessage_blank (parse : Str → Option ParsedEvt) (text : Str) (t1 t2 : Nat)
    (outc : Outcome) (msgs : List Message) (hb : jsTrim text = []) :
    sendMessage parse text t1 t2 outc msgs = msgs := by
  unfold sendMessage
  rw [if_pos hb]

/-- `boundAfter` never decreases along spaced readings. -/
theorem boundAfter_ge : ∀ (xs : List Nat) (b : Nat),
    spacedFromB b xs = true → b ≤ boundAfter b xs := by
  intro xs
  induction xs with
  | nil => intro b _; exact Nat.le_refl b
  | cons x xs ih =>
    intro b h
    simp only [spacedFromB, Bool.and_eq_true, decide_eq_true_eq] at h
    have := ih (x + 2) h.2
    show b ≤ boundAfter (x + 2) xs
    omega

/-- Splitting a spaced reading sequence. -/
theorem spacedFromB_append : ∀ (xs : List Nat) (b : Nat) (ys : List Nat),
    spacedFromB b (xs ++ ys) = (spacedFromB b xs && spacedFromB (boundAfter b xs) ys) := by
  intro xs
  induction xs with
  | nil => intro b ys; simp [spacedFromB, boundAfter]
  | cons x xs ih =>
    intro b ys
    show (decide (b ≤ x) && spacedFromB (x + 2) (xs ++ ys)) = _
    rw [ih]
    show _ = ((decide (b ≤ x) && spacedFromB (x + 2) xs) && spacedFromB (boundAfter (x + 2) xs) ys)
    rw [Bool.and_assoc]

/-- Induction workhorse for id uniqueness: starting from a transcript whose
ids are pairwise distinct and all below the next admissible clock reading,
any spaced sequence of sends keeps the ids pairwise distinct. -/
theorem session_ids_aux : ∀ (calls : List SendCall) (parse : Str → Option ParsedEvt)
    (msgs : List Message) (b : Nat),
    (∀ i ∈ idsOf msgs, i < b) →
    (idsOf msgs).Pairwise (· ≠ ·) →
    spacedFromB b (sessionReadings calls) = true →
    (idsOf (runSession parse calls msgs)).Pairwise (· ≠ ·) := by
  intro calls
  induction calls with
  | nil => intro parse msgs b _ hpw _; exact hpw
  | cons c rest ih =>
    intro parse msgs b hbound hpw hsp
    have hsr : sessionReadings (c :: rest) = callReadings c ++ sessionReadings rest := by
      simp [sessionReadings]
    rw [hsr, spacedFromB_append, Bool.and_eq_true] at hsp
    obtain ⟨hsp1, hsp2⟩ := hsp
    show (idsOf (runSession parse rest (sendMessage parse c.text c.t1 c.t2 c.outcome msgs))).Pairwise _
    by_cases hb : jsTrim c.text = []
    · rw [sendMessage_blank parse c.text c.t1 c.t2 c.outcome msgs hb]
      have hble : b ≤ boundAfter b (callReadings c) := boundAfter_ge _ b hsp1
      apply ih parse msgs (boundAfter b (callReadings c)) ?_ hpw hsp2
      intro i hi
      have := hbound i hi
      omega
    · cases hoc : c.outcome with
      | ok chunks =>
        have hids : idsOf (sendMessage parse c.text c.t1 c.t2 (Outcome.ok chunks) msgs)
            = idsOf msgs ++ [c.t1, c.t2 + 1] := by
          rw [sendMessage_ids parse c.text c.t1 c.t2 _ msgs hb]
        have hcr : callReadings c = [c.t1, c.t2] := by rw [callReadings, hoc]
        rw [hcr] at hsp1 hsp2
        simp only [spacedFromB, Bool.and_eq_true, decide_eq_true_eq] at hsp1
        obtain ⟨h1, h2, -⟩ := hsp1
        have hba : boundAfter b [c.t1, c.t2] = c.t2 + 2 := rfl
        rw [hba] at hsp2
        apply ih parse _ (c.t2 + 2) ?_ ?_ hsp2
        · intro i hi
          rw [hids] at hi
          simp only [List.mem_append, List.mem_cons, List.not_mem_nil, or_false] at hi
          rcases hi with hi | hi | hi
          · have := hbound i hi
            omega
          · omega
          · omega
        · rw [hids, List.pairwise_append]
          refine ⟨hpw, ?_, ?_⟩
          · refine List.Pairwise.cons ?_ (List.Pairwise.cons ?_ List.Pairwise.nil)
            · intro a ha
              simp only [List.mem_cons, List.not_mem_nil, or_false] at ha
              omega
            · intro a ha
              exact absurd ha (List.not_mem_nil a)
          · intro x hx y hy
            have hxb := hbound x hx
            simp only [List.mem_cons, List.not_mem_nil, or_false] at hy
            rcases hy with hy | hy <;> omega
      | err chunks t3 =>
        have hids : idsOf (sendMessage parse c.text c.t1 c.t2 (Outcome.err chunks t3) msgs)
            = idsOf msgs ++ [c.t1, c.t2 + 1, t3 + 1] := by
          rw [sendMessage_ids parse c.text c.t1 c.t2 _ msgs hb]
        have hcr : callReadings c = [c.t1, c.t2, t3] := by rw [callReadings, hoc]
        rw [hcr] at hsp1 hsp2
        simp only [spacedFromB, Bool.and_eq_true, decide_eq_true_eq] at hsp1
        obtain ⟨h1, h2, h3, -⟩ := hsp1
        have hba : boundAfter b [c.t1, c.t2, t3] = t3 + 2 := rfl
        rw [hba] at hsp2
        apply ih parse _ (t3 + 2) ?_ ?_ hsp2
        · intro i hi
          rw [hids] at hi
          simp only [List.mem_append, List.mem_cons, List.not_mem_nil, or_false] at hi
          rcases hi with hi | hi | hi | hi
          · have := hbound i hi
            omega
          · omega
          · omega
          · omega
        · rw [hids, List.pairwise_append]
          refine ⟨hpw, ?_, ?_⟩
          · refine List.Pairwise.cons ?_
              (List.Pairwise.cons ?_ (List.Pairwise.cons ?_ List.Pairwise.nil))
            · intro a ha
              simp only [List.mem_cons, List.not_mem_nil, or_false] at ha
              rcases ha with ha | ha <;> omega
            · intro a ha
              simp only [List.mem_cons, List.not_mem_nil, or_false] at ha
              omega
            · intro a ha
              exact absurd ha (List.not_mem_nil a)
          · intro x hx y hy
            have hxb := hbound x hx
            simp only [List.mem_cons, List.not_mem_nil, or_false] at hy
            rcases hy with hy | hy | hy <;> omega

/-- Claim C6 (amended): across any interleaving of sends, frames and
transport errors, all message ids in the transcript are pairwise distinct —
provided successive `Date.now()` readings are spaced at least 2 apart.  (With
same-millisecond readings the timestamp-derived scheme does collide; see the
counterexample.)  Frame processing itself never creates or renumbers
messages, so spacing of the clock readings is the only requirement. -/
theorem session_ids_unique (parse : Str → Option ParsedEvt) (calls : List SendCall)
    (h : spacedFromB 0 (sessionReadings calls) = true) :
    (idsOf (runSession parse calls [])).Pairwise (· ≠ ·) :=
  session_ids_aux calls parse [] 0 (by intro i hi; simp [idsOf] at hi)
    (by simp [idsOf]) h

/-- Witness for C6 (amended): the two-send demo session with spaced clocks. -/
theorem session_ids_unique_witness :
    spacedFromB 0 (sessionReadings demoCalls) = true
    ∧ (idsOf (runSession noParse demoCalls [])).Pairwise (· ≠ ·) :=
  ⟨by decide, session_ids_unique noParse demoCalls (by decide)⟩

/-- Counterexample to C6 as stated: one send whose transport fails within the
same millisecond as placeholder creation (all `Date.now()` readings 0)
produces the id list `[0, 1, 1]` — the placeholder and the error message
share id 1, so ids are not globally unique in every reachable state. -/
theorem session_ids_duplicate_cex :
    ¬ (idsOf (runSession noParse
        [⟨"hi".toList, 0, 0, Outcome.err [] 0⟩] [])).Pairwise (· ≠ ·) := by
  decide

/-! ### The session-id initializer -/

/-- Claim C7 (amended): repeated calls to the initializer within one storage
lifetime return the same non-empty string, provided the stored id (if any) is
non-empty and the freshly generated id is non-empty.  On the UUID path the
generated id is a 36-character UUID and hence non-empty; on the pseudo-random
fallback path the generated id is non-empty for every non-zero draw — but a
draw of exactly 0 yields the empty string (see the counterexample), which is
why the proviso is needed. -/
theorem sessionId_stable (store : Option Str) (fresh f2 : Str)
    (hs : storedOkB store = true) (hf : fresh ≠ []) :
    ((getOrCreateSessionId store fresh).1 ≠ []
      ∧ getOrCreateSessionId (getOrCreateSessionId store fresh).2 f2
          = getOrCreateSessionId store fresh)
    ∧ ∀ k : Nat, k ≠ 0 → fallbackSessionId k ≠ [] := by
  constructor
  · cases store with
    | none => simp [getOrCreateSessionId, hf]
    | some s =>
      have hsne : s ≠ [] := by
        simpa [storedOkB, List.isEmpty_iff] using hs
      simp [getOrCreateSessionId, hsne]
  · intro k hk
    unfold fallbackSessionId randomToString36
    rw [if_neg hk]
    show fracDigits36 53 k ≠ []
    have e : fracDigits36 53 k
        = if k = 0 then []
          else digitChar36 (k * 36 / 2 ^ 53) :: fracDigits36 52 (k * 36 % 2 ^ 53) := rfl
    rw [e, if_neg hk]
    simp

/-- Witness for C7 (amended): a stored non-empty id is returned unchanged by
two successive calls. -/
theorem sessionId_stable_witness :
    storedOkB (some "abc".toList) = true ∧ "x".toList ≠ [] ∧
    (((getOrCreateSessionId (some "abc".toList) "x".toList).1 ≠ []
       ∧ getOrCreateSessionId
           (getOrCreateSessionId (some "abc".toList) "x".toList).2 "y".toList
           = getOrCreateSessionId (some "abc".toList) "x".toList)
     ∧ ∀ k : Nat, k ≠ 0 → fallbackSessionId k ≠ []) :=
  ⟨by decide, by decide,
   sessionId_stable (some "abc".toList) "x".toList "y".toList (by decide) (by decide)⟩

/-- Counterexample to C7 as stated: on the fallback path a `Math.random()`
draw of exactly 0 gives `(0).toString(36) = '0'`, whose `slice(2)` is the
empty string.  The initializer then returns an empty session id — refuting
"always a non-empty string" — and, the stored empty string being falsy, the
next call regenerates and returns a different id — refuting stability. -/
theorem sessionId_empty_cex :
    fallbackSessionId 0 = []
    ∧ (getOrCreateSessionId none (fallbackSessionId 0)).1 = []
    ∧ (getOrCreateSessionId
         (getOrCreateSessionId none (fallbackSessionId 0)).2 "a".toList).1
        ≠ (getOrCreateSessionId none (fallbackSessionId 0)).1 := by
  decide
